import Mathlib

/-!
Shallow embedding of the ring buffer in
src/src/coroutines/Classical_producer_consumer.cpp (namespace utils).

The C++ class is a bounded circular buffer of Blocks slots, each slot a
fixed-capacity block of BlockSize elements plus a fill count, guarded by a
mutex and two counting semaphores (writeSemaphore_, readSemaphore_).

Embedding choices:
- Each operation is modelled sequentially (one thread runs it to
  completion); the mutex-protected critical section collapses into a pure
  state transformation on a record of the member fields.
- A counting semaphore is a natural-number counter.  A blocking acquire on
  a zero counter would suspend forever in a sequential run, so the blocking
  operations return Option: none means the call is not admitted (blocks).
  A timed try_acquire_for on a zero counter (no concurrent writer) expires,
  so the timed operations are total and return false on a zero counter.
- std::array fields become Lists whose length is fixed (Blocks for the slot
  array, BlockSize for a slot s data array) in every reachable state;
  indexed access uses List.getD with a dummy default that is never hit when
  the index is in range.
- The out-parameters (block&, Collection&, ptr/size) are threaded as values:
  an operation takes the caller s current value and returns the new one.
-/

namespace utils

/-- Slot type: number of actually stored elements plus the element storage
(capacity BlockSize in the C++ template; here the list length). -/
structure block (α : Type) where
  size_ : Nat
  data_ : List α
deriving DecidableEq, Repr

/-- State of utils::RingBuffer<T, Blocks, BlockSize>: the two counting
semaphores, the two cursors and the slot array. -/
structure RingBuffer (α : Type) where
  writeSemaphore_ : Nat
  readSemaphore_ : Nat
  writeIndex_ : Nat
  readIndex_ : Nat
  blocks_ : List (block α)
deriving DecidableEq, Repr

namespace RingBuffer

/-- Dummy block returned by List.getD on an out-of-range index (never hit
when the cursor invariants hold). -/
def dummy {α : Type} : block α := ⟨0, []⟩

/-- A freshly constructed buffer: writeSemaphore_ starts at Blocks,
readSemaphore_ at 0, both cursors at 0.  The C++ slot array is
default-initialized (indeterminate size_ fields), so the initial slot
contents are a parameter. -/
def fresh {α : Type} (Blocks : Nat) (bs : List (block α)) : RingBuffer α :=
  { writeSemaphore_ := Blocks, readSemaphore_ := 0,
    writeIndex_ := 0, readIndex_ := 0, blocks_ := bs }

/-- void write(block_type&&): acquire writeSemaphore_, store the block at
writeIndex_, advance writeIndex_ modulo Blocks, release readSemaphore_. -/
def write {α : Type} (Blocks : Nat) (rb : RingBuffer α) (data : block α) :
    Option (RingBuffer α) :=
  if rb.writeSemaphore_ = 0 then none
  else some { rb with
    writeSemaphore_ := rb.writeSemaphore_ - 1,
    blocks_ := rb.blocks_.set rb.writeIndex_ data,
    writeIndex_ := (rb.writeIndex_ + 1) % Blocks,
    readSemaphore_ := rb.readSemaphore_ + 1 }

/-- size_t write(Collection&&): written = min(BlockSize, collection.size());
acquire writeSemaphore_; set the slot s size_ to written and overwrite the
first written entries of its data array (the tail keeps its old contents);
advance writeIndex_; release readSemaphore_; return written. -/
def writeCol {α : Type} (Blocks BlockSize : Nat) (rb : RingBuffer α)
    (collection : List α) : Option (RingBuffer α × Nat) :=
  let written := min BlockSize collection.length
  if rb.writeSemaphore_ = 0 then none
  else
    let old := rb.blocks_.getD rb.writeIndex_ dummy
    let blk : block α := ⟨written, collection.take written ++ old.data_.drop written⟩
    some ({ rb with
      writeSemaphore_ := rb.writeSemaphore_ - 1,
      blocks_ := rb.blocks_.set rb.writeIndex_ blk,
      writeIndex_ := (rb.writeIndex_ + 1) % Blocks,
      readSemaphore_ := rb.readSemaphore_ + 1 }, written)

/-- bool readImpl(Func&&): under the lock, if writeIndex_ == readIndex_
return false; otherwise apply the functor to the slot at readIndex_
(threading the functor s captured state acc), release writeSemaphore_ and
return true.  Note: it does NOT advance readIndex_. -/
def readImplF {α β : Type} (rb : RingBuffer α) (func : block α → β → β)
    (acc : β) : Bool × RingBuffer α × β :=
  if rb.writeIndex_ = rb.readIndex_ then (false, rb, acc)
  else (true, { rb with writeSemaphore_ := rb.writeSemaphore_ + 1 },
        func (rb.blocks_.getD rb.readIndex_ dummy) acc)

/-- bool readImpl(Func&&, block_type&, Args&&...), after the semaphore
acquire already succeeded: under the lock, if readIndex_ == writeIndex_
return false (buffer "empty"); otherwise copy the slot at readIndex_ into
the out block, advance readIndex_ modulo Blocks, release writeSemaphore_
and return true. -/
def readImplB {α : Type} (Blocks : Nat) (rb : RingBuffer α) (blk : block α) :
    Bool × RingBuffer α × block α :=
  if rb.readIndex_ = rb.writeIndex_ then (false, rb, blk)
  else (true,
    { rb with readIndex_ := (rb.readIndex_ + 1) % Blocks,
              writeSemaphore_ := rb.writeSemaphore_ + 1 },
    rb.blocks_.getD rb.readIndex_ dummy)

/-- bool read(block_type&): blocking acquire of readSemaphore_ (none when
the counter is zero: the call suspends), then the block readImpl. -/
def read {α : Type} (Blocks : Nat) (rb : RingBuffer α) (blk : block α) :
    Option (Bool × RingBuffer α × block α) :=
  if rb.readSemaphore_ = 0 then none
  else some (readImplB Blocks { rb with readSemaphore_ := rb.readSemaphore_ - 1 } blk)

/-- bool read_for(block_type&, timeout): timed acquire of readSemaphore_
(expires, returning false and touching nothing, when the counter is zero),
then the block readImpl. -/
def read_for {α : Type} (Blocks : Nat) (rb : RingBuffer α) (blk : block α) :
    Bool × RingBuffer α × block α :=
  if rb.readSemaphore_ = 0 then (false, rb, blk)
  else readImplB Blocks { rb with readSemaphore_ := rb.readSemaphore_ - 1 } blk

/-- The functor passed by the Collection overloads of read/read_for:
reserve(block.size_) then std::copy(data_.cbegin(), data_.cend(),
back_inserter(collection)) — it appends the WHOLE data array (all BlockSize
entries), not only the first size_ entries. -/
def colAppend {α : Type} : block α → List α → List α :=
  fun blk col => col ++ blk.data_

/-- auto read(Collection&): blocking acquire of readSemaphore_, then
readImpl with the appending functor. -/
def readCol {α : Type} (rb : RingBuffer α) (collection : List α) :
    Option (Bool × RingBuffer α × List α) :=
  if rb.readSemaphore_ = 0 then none
  else some (readImplF { rb with readSemaphore_ := rb.readSemaphore_ - 1 }
    colAppend collection)

/-- auto read_for(Collection&, timeout): timed acquire of readSemaphore_
(returns false leaving everything unchanged when it expires), then readImpl
with the appending functor. -/
def readCol_for {α : Type} (rb : RingBuffer α) (collection : List α) :
    Bool × RingBuffer α × List α :=
  if rb.readSemaphore_ = 0 then (false, rb, collection)
  else readImplF { rb with readSemaphore_ := rb.readSemaphore_ - 1 }
    colAppend collection

/-- The functor passed by read_bytes/read_bytes_for: size = min(size,
block.size_); memcpy(ptr, block.data_.data(), size).  The caller s byte
buffer is modelled as a list whose first size entries get overwritten. -/
def bytesCopy {α : Type} : block α → List α × Nat → List α × Nat :=
  fun blk ps =>
    let sz := min ps.2 blk.size_
    (blk.data_.take sz ++ ps.1.drop sz, sz)

/-- bool read_bytes(T*, size_t&): blocking acquire of readSemaphore_, then
readImpl with the byte-copy functor. -/
def read_bytes {α : Type} (rb : RingBuffer α) (ptr : List α) (size : Nat) :
    Option (Bool × RingBuffer α × (List α × Nat)) :=
  if rb.readSemaphore_ = 0 then none
  else some (readImplF { rb with readSemaphore_ := rb.readSemaphore_ - 1 }
    bytesCopy (ptr, size))

/-- bool read_bytes_for(T*, size_t&, timeout): timed acquire of
readSemaphore_ (returns false leaving everything unchanged when it
expires), then readImpl with the byte-copy functor. -/
def read_bytes_for {α : Type} (rb : RingBuffer α) (ptr : List α) (size : Nat) :
    Bool × RingBuffer α × (List α × Nat) :=
  if rb.readSemaphore_ = 0 then (false, rb, (ptr, size))
  else readImplF { rb with readSemaphore_ := rb.readSemaphore_ - 1 }
    bytesCopy (ptr, size)

/-- bool is_empty() const: under the lock, report writeIndex_ == readIndex_. -/
def is_empty {α : Type} (rb : RingBuffer α) : Bool :=
  rb.writeIndex_ == rb.readIndex_

/-- Iterated write(block_type&&): perform the given writes in order; none
as soon as one of them is not admitted. -/
def writeAll {α : Type} (Blocks : Nat) (rb : RingBuffer α) :
    List (block α) → Option (RingBuffer α)
  | [] => some rb
  | b :: bs =>
    match write Blocks rb b with
    | none => none
    | some rb1 => writeAll Blocks rb1 bs

/-- Iterated read(block_type&): perform k block reads (each with a freshly
default-constructed out block, as in the consumer loop), collecting the
blocks returned; none as soon as one read blocks or reports false. -/
def readAll {α : Type} (Blocks : Nat) (rb : RingBuffer α) (dflt : block α) :
    Nat → Option (RingBuffer α × List (block α))
  | 0 => some (rb, [])
  | k + 1 =>
    match read Blocks rb dflt with
    | none => none
    | some (false, _, _) => none
    | some (true, rb1, b) =>
      match readAll Blocks rb1 dflt k with
      | none => none
      | some (rb2, out) => some (rb2, b :: out)

/-- States reachable from a freshly constructed buffer by any sequence of
the public operations (run sequentially to completion). -/
inductive Reachable {α : Type} (Blocks BlockSize : Nat) : RingBuffer α → Prop
  | fresh_ (bs : List (block α)) (h : bs.length = Blocks) :
      Reachable Blocks BlockSize (fresh Blocks bs)
  | write_ {rb rb' : RingBuffer α} {b : block α} (hr : Reachable Blocks BlockSize rb)
      (h : write Blocks rb b = some rb') : Reachable Blocks BlockSize rb'
  | writeCol_ {rb rb' : RingBuffer α} {c : List α} {n : Nat}
      (hr : Reachable Blocks BlockSize rb)
      (h : writeCol Blocks BlockSize rb c = some (rb', n)) :
      Reachable Blocks BlockSize rb'
  | read_ {rb rb' : RingBuffer α} {blk out : block α} {ok : Bool}
      (hr : Reachable Blocks BlockSize rb)
      (h : read Blocks rb blk = some (ok, rb', out)) : Reachable Blocks BlockSize rb'
  | read_for_ {rb rb' : RingBuffer α} {blk out : block α} {ok : Bool}
      (hr : Reachable Blocks BlockSize rb)
      (h : read_for Blocks rb blk = (ok, rb', out)) : Reachable Blocks BlockSize rb'
  | readCol_ {rb rb' : RingBuffer α} {c out : List α} {ok : Bool}
      (hr : Reachable Blocks BlockSize rb)
      (h : readCol rb c = some (ok, rb', out)) : Reachable Blocks BlockSize rb'
  | readCol_for_ {rb rb' : RingBuffer α} {c out : List α} {ok : Bool}
      (hr : Reachable Blocks BlockSize rb)
      (h : readCol_for rb c = (ok, rb', out)) : Reachable Blocks BlockSize rb'
  | read_bytes_ {rb rb' : RingBuffer α} {p : List α} {s : Nat}
      {po : List α × Nat} {ok : Bool} (hr : Reachable Blocks BlockSize rb)
      (h : read_bytes rb p s = some (ok, rb', po)) : Reachable Blocks BlockSize rb'
  | read_bytes_for_ {rb rb' : RingBuffer α} {p : List α} {s : Nat}
      {po : List α × Nat} {ok : Bool} (hr : Reachable Blocks BlockSize rb)
      (h : read_bytes_for rb p s = (ok, rb', po)) : Reachable Blocks BlockSize rb'

end RingBuffer

end utils

namespace utils.RingBuffer

/-- Helper: a successful write(block_type&&) requires a nonzero
writeSemaphore_ and its net effect on the state. -/
theorem write_some {α : Type} {Blocks : Nat} {rb rb' : RingBuffer α}
    {b : block α} (h : write Blocks rb b = some rb') :
    rb.writeSemaphore_ ≠ 0 ∧
      rb' = ⟨rb.writeSemaphore_ - 1, rb.readSemaphore_ + 1,
        (rb.writeIndex_ + 1) % Blocks, rb.readIndex_,
        rb.blocks_.set rb.writeIndex_ b⟩ := by
  unfold write at h
  split at h
  · exact absurd h (by simp)
  · exact ⟨by assumption, (Option.some.inj h).symm⟩

/-- Helper: a successful write(Collection&&) requires a nonzero
writeSemaphore_, returns min(BlockSize, length) and its net effect on the
state. -/
theorem writeCol_some {α : Type} {Blocks BlockSize : Nat}
    {rb rb' : RingBuffer α} {c : List α} {n : Nat}
    (h : writeCol Blocks BlockSize rb c = some (rb', n)) :
    rb.writeSemaphore_ ≠ 0 ∧ n = min BlockSize c.length ∧
      rb' = ⟨rb.writeSemaphore_ - 1, rb.readSemaphore_ + 1,
        (rb.writeIndex_ + 1) % Blocks, rb.readIndex_,
        rb.blocks_.set rb.writeIndex_
          ⟨min BlockSize c.length, c.take (min BlockSize c.length) ++
            (rb.blocks_.getD rb.writeIndex_ dummy).data_.drop
              (min BlockSize c.length)⟩⟩ := by
  unfold writeCol at h
  split at h
  · exact absurd h (by simp)
  · have h' := Option.some.inj h
    exact ⟨by assumption, (congrArg Prod.snd h').symm,
      (congrArg Prod.fst h').symm⟩

/-- Helper: dissection of the block overload of readImpl (after the
semaphore acquire). -/
theorem readImplB_eq {α : Type} {Blocks : Nat} {rb rb' : RingBuffer α}
    {blk out : block α} {ok : Bool}
    (h : readImplB Blocks rb blk = (ok, rb', out)) :
    (ok = false ∧ rb.readIndex_ = rb.writeIndex_ ∧ rb' = rb ∧ out = blk) ∨
    (ok = true ∧ rb.readIndex_ ≠ rb.writeIndex_ ∧
      rb' = ⟨rb.writeSemaphore_ + 1, rb.readSemaphore_, rb.writeIndex_,
        (rb.readIndex_ + 1) % Blocks, rb.blocks_⟩ ∧
      out = rb.blocks_.getD rb.readIndex_ dummy) := by
  unfold readImplB at h
  split at h
  · exact Or.inl ⟨(congrArg Prod.fst h).symm, by assumption,
      (congrArg (fun p => p.2.1) h).symm, (congrArg (fun p => p.2.2) h).symm⟩
  · exact Or.inr ⟨(congrArg Prod.fst h).symm, by assumption,
      (congrArg (fun p => p.2.1) h).symm, (congrArg (fun p => p.2.2) h).symm⟩

/-- Helper: dissection of the functor overload of readImpl (after the
semaphore acquire): it never moves either cursor and never touches the
slot array. -/
theorem readImplF_eq {α β : Type} {rb rb' : RingBuffer α}
    {func : block α → β → β} {acc res : β} {ok : Bool}
    (h : readImplF rb func acc = (ok, rb', res)) :
    (ok = false ∧ rb.writeIndex_ = rb.readIndex_ ∧ rb' = rb ∧ res = acc) ∨
    (ok = true ∧ rb.writeIndex_ ≠ rb.readIndex_ ∧
      rb' = ⟨rb.writeSemaphore_ + 1, rb.readSemaphore_, rb.writeIndex_,
        rb.readIndex_, rb.blocks_⟩ ∧
      res = func (rb.blocks_.getD rb.readIndex_ dummy) acc) := by
  unfold readImplF at h
  split at h
  · exact Or.inl ⟨(congrArg Prod.fst h).symm, by assumption,
      (congrArg (fun p => p.2.1) h).symm, (congrArg (fun p => p.2.2) h).symm⟩
  · exact Or.inr ⟨(congrArg Prod.fst h).symm, by assumption,
      (congrArg (fun p => p.2.1) h).symm, (congrArg (fun p => p.2.2) h).symm⟩

/-- Helper: a successful (admitted) blocking block read decrements
readSemaphore_ and then behaves as readImplB on the decremented state. -/
theorem read_some {α : Type} {Blocks : Nat} {rb rb' : RingBuffer α}
    {blk out : block α} {ok : Bool}
    (h : read Blocks rb blk = some (ok, rb', out)) :
    rb.readSemaphore_ ≠ 0 ∧
      readImplB Blocks ⟨rb.writeSemaphore_, rb.readSemaphore_ - 1,
        rb.writeIndex_, rb.readIndex_, rb.blocks_⟩ blk = (ok, rb', out) := by
  unfold read at h
  split at h
  · exact absurd h (by simp)
  · exact ⟨by assumption, (Option.some.inj h)⟩

/-- Helper: same dissection for an admitted read(Collection&). -/
theorem readCol_some {α : Type} {rb rb' : RingBuffer α} {c out : List α}
    {ok : Bool} (h : readCol rb c = some (ok, rb', out)) :
    rb.readSemaphore_ ≠ 0 ∧
      readImplF ⟨rb.writeSemaphore_, rb.readSemaphore_ - 1,
        rb.writeIndex_, rb.readIndex_, rb.blocks_⟩ colAppend c =
        (ok, rb', out) := by
  unfold readCol at h
  split at h
  · exact absurd h (by simp)
  · exact ⟨by assumption, (Option.some.inj h)⟩

/-- Helper: same dissection for an admitted read_bytes. -/
theorem read_bytes_some {α : Type} {rb rb' : RingBuffer α} {p : List α}
    {sz : Nat} {po : List α × Nat} {ok : Bool}
    (h : read_bytes rb p sz = some (ok, rb', po)) :
    rb.readSemaphore_ ≠ 0 ∧
      readImplF ⟨rb.writeSemaphore_, rb.readSemaphore_ - 1,
        rb.writeIndex_, rb.readIndex_, rb.blocks_⟩ bytesCopy (p, sz) =
        (ok, rb', po) := by
  unfold read_bytes at h
  split at h
  · exact absurd h (by simp)
  · exact ⟨by assumption, (Option.some.inj h)⟩

/-- Helper: dissection of the timed block read: either the timed acquire
expires on a zero readSemaphore_ and nothing changes, or it decrements the
counter and proceeds as readImplB. -/
theorem read_for_eq {α : Type} {Blocks : Nat} {rb rb' : RingBuffer α}
    {blk out : block α} {ok : Bool}
    (h : read_for Blocks rb blk = (ok, rb', out)) :
    (rb.readSemaphore_ = 0 ∧ ok = false ∧ rb' = rb ∧ out = blk) ∨
    (rb.readSemaphore_ ≠ 0 ∧
      readImplB Blocks ⟨rb.writeSemaphore_, rb.readSemaphore_ - 1,
        rb.writeIndex_, rb.readIndex_, rb.blocks_⟩ blk = (ok, rb', out)) := by
  unfold read_for at h
  split at h
  · exact Or.inl ⟨by assumption, (congrArg Prod.fst h).symm,
      (congrArg (fun p => p.2.1) h).symm, (congrArg (fun p => p.2.2) h).symm⟩
  · exact Or.inr ⟨by assumption, h⟩

/-- Helper: dissection of the timed collection read. -/
theorem readCol_for_eq {α : Type} {rb rb' : RingBuffer α} {c out : List α}
    {ok : Bool} (h : readCol_for rb c = (ok, rb', out)) :
    (rb.readSemaphore_ = 0 ∧ ok = false ∧ rb' = rb ∧ out = c) ∨
    (rb.readSemaphore_ ≠ 0 ∧
      readImplF ⟨rb.writeSemaphore_, rb.readSemaphore_ - 1,
        rb.writeIndex_, rb.readIndex_, rb.blocks_⟩ colAppend c =
        (ok, rb', out)) := by
  unfold readCol_for at h
  split at h
  · exact Or.inl ⟨by assumption, (congrArg Prod.fst h).symm,
      (congrArg (fun p => p.2.1) h).symm, (congrArg (fun p => p.2.2) h).symm⟩
  · exact Or.inr ⟨by assumption, h⟩

/-- Helper: dissection of the timed byte read. -/
theorem read_bytes_for_eq {α : Type} {rb rb' : RingBuffer α} {p : List α}
    {sz : Nat} {po : List α × Nat} {ok : Bool}
    (h : read_bytes_for rb p sz = (ok, rb', po)) :
    (rb.readSemaphore_ = 0 ∧ ok = false ∧ rb' = rb ∧ po = (p, sz)) ∨
    (rb.readSemaphore_ ≠ 0 ∧
      readImplF ⟨rb.writeSemaphore_, rb.readSemaphore_ - 1,
        rb.writeIndex_, rb.readIndex_, rb.blocks_⟩ bytesCopy (p, sz) =
        (ok, rb', po)) := by
  unfold read_bytes_for at h
  split at h
  · exact Or.inl ⟨by assumption, (congrArg Prod.fst h).symm,
      (congrArg (fun p => p.2.1) h).symm, (congrArg (fun p => p.2.2) h).symm⟩
  · exact Or.inr ⟨by assumption, h⟩

/-- Helper: the net effect of a run of consecutive successful block writes
that stays within one lap of the ring (writeIndex_ + number of writes does
not pass Blocks): the semaphores move by the number of writes, the write
cursor advances by it modulo Blocks, the read cursor is untouched and the
written blocks land consecutively starting at the old write cursor. -/
theorem writeAll_spec {α : Type} (Blocks : Nat)
    (bs : List (block α)) :
    ∀ rb : RingBuffer α, rb.blocks_.length = Blocks → rb.writeIndex_ < Blocks →
      rb.writeIndex_ + bs.length ≤ Blocks → bs.length ≤ rb.writeSemaphore_ →
      writeAll Blocks rb bs = some
        ⟨rb.writeSemaphore_ - bs.length, rb.readSemaphore_ + bs.length,
         (rb.writeIndex_ + bs.length) % Blocks, rb.readIndex_,
         rb.blocks_.take rb.writeIndex_ ++ bs ++
           rb.blocks_.drop (rb.writeIndex_ + bs.length)⟩ := by
  induction bs with
  | nil =>
    intro rb hlen hwi hcap hsem
    obtain ⟨ws, rs, wi, ri, l⟩ := rb
    simp only at hwi hlen
    simp [writeAll, Nat.mod_eq_of_lt hwi, List.take_append_drop]
  | cons b bs' ih =>
    intro rb hlen hwi hcap hsem
    obtain ⟨ws, rs, wi, ri, l⟩ := rb
    simp only [List.length_cons] at hcap hsem ⊢
    simp only at hwi hlen
    have hws : ¬ ws = 0 := by omega
    have hwl : wi < l.length := by omega
    have hset : l.set wi b = l.take wi ++ b :: l.drop (wi + 1) :=
      List.set_eq_take_cons_drop b hwl
    have htl : (l.take wi).length = wi := by
      simp only [List.length_take]
      omega
    rw [writeAll, write]
    simp only [if_neg hws]
    rcases Nat.lt_or_ge (wi + 1) Blocks with hlt | hge
    · have hmod : (wi + 1) % Blocks = wi + 1 := Nat.mod_eq_of_lt hlt
      simp only [hmod]
      rw [ih ⟨ws - 1, rs + 1, wi + 1, ri, l.set wi b⟩
        (by simp [hlen]) hlt (by dsimp only; omega) (by dsimp only; omega)]
      dsimp only
      simp only [Option.some.injEq, RingBuffer.mk.injEq]
      have htake : (l.set wi b).take (wi + 1) = l.take wi ++ [b] := by
        rw [hset, show wi + 1 = (l.take wi).length + 1 by omega,
          List.take_append]
        simp
      have hdrop : (l.set wi b).drop (wi + 1 + bs'.length) =
          l.drop (wi + (bs'.length + 1)) := by
        rw [hset, show wi + 1 + bs'.length = (l.take wi).length +
          (bs'.length + 1) by omega, List.drop_append,
          List.drop_succ_cons, List.drop_drop]
        congr 1
        omega
      refine ⟨by omega, by omega, ?_, ?_⟩
      · conv_lhs => rw [show wi + 1 + bs'.length = wi + (bs'.length + 1) by omega]
      · rw [htake, hdrop]
        simp
    · have hblk : wi + 1 = Blocks := by omega
      have hnil : bs' = [] := List.eq_nil_of_length_eq_zero (by omega)
      subst hnil
      rw [writeAll]
      simp only [Option.some.injEq, RingBuffer.mk.injEq, List.length_nil,
        Nat.zero_add]
      rw [hset]
      simp

/-- Helper: the net effect of a run of consecutive successful block reads
that stays within one lap of the ring and never meets the write cursor:
the semaphores move by the number of reads, the read cursor advances by it
modulo Blocks, the write cursor and the slot array are untouched and the
blocks returned are the consecutive slots starting at the old read cursor. -/
theorem readAll_spec {α : Type} (Blocks : Nat) (dflt : block α) (k : Nat) :
    ∀ rb : RingBuffer α, rb.blocks_.length = Blocks → rb.readIndex_ < Blocks →
      rb.readIndex_ + k ≤ Blocks → k ≤ rb.readSemaphore_ →
      (∀ i, i < k → rb.readIndex_ + i ≠ rb.writeIndex_) →
      readAll Blocks rb dflt k = some
        (⟨rb.writeSemaphore_ + k, rb.readSemaphore_ - k, rb.writeIndex_,
          (rb.readIndex_ + k) % Blocks, rb.blocks_⟩,
         (rb.blocks_.drop rb.readIndex_).take k) := by
  induction k with
  | zero =>
    intro rb hlen hri hcap hsem hne
    obtain ⟨ws, rs, wi, ri, l⟩ := rb
    simp only at hri hlen
    simp [readAll, Nat.mod_eq_of_lt hri]
  | succ k ih =>
    intro rb hlen hri hcap hsem hne
    obtain ⟨ws, rs, wi, ri, l⟩ := rb
    simp only at hri hlen hcap hsem hne
    have hrs : ¬ rs = 0 := by omega
    have hrl : ri < l.length := by omega
    have hriwi : ¬ ri = wi := by
      have := hne 0 (by omega)
      simpa using this
    rw [readAll, read]
    simp only [if_neg hrs, readImplB, if_neg hriwi]
    have hdropc : l.drop ri = l.getD ri dummy :: l.drop (ri + 1) := by
      rw [List.getD_eq_getElem l dummy hrl]
      exact List.drop_eq_getElem_cons hrl
    rcases Nat.lt_or_ge (ri + 1) Blocks with hlt | hge
    · have hmod : (ri + 1) % Blocks = ri + 1 := Nat.mod_eq_of_lt hlt
      simp only [hmod]
      rw [ih ⟨ws + 1, rs - 1, wi, ri + 1, l⟩ hlen hlt (by dsimp only; omega)
        (by dsimp only; omega)
        (by intro i hi
            have := hne (i + 1) (by omega)
            dsimp only
            omega)]
      dsimp only
      simp only [Option.some.injEq, Prod.mk.injEq, RingBuffer.mk.injEq,
        and_true, true_and]
      refine ⟨⟨by omega, by omega, ?_⟩, ?_⟩
      · congr 1
        omega
      · rw [hdropc]
        simp
    · have hblk : ri + 1 = Blocks := by omega
      have hk : k = 0 := by omega
      subst hk
      rw [readAll]
      simp only [Option.some.injEq, Prod.mk.injEq, RingBuffer.mk.injEq,
        Nat.zero_add, and_true, true_and]
      rw [hdropc]
      simp

/-- Helper: in every reachable state both cursors are strictly below
Blocks (they start at 0 and only ever advance modulo Blocks). -/
theorem reachable_cursor_lt {α : Type} {Blocks BlockSize : Nat}
    (hB : 0 < Blocks) {rb : RingBuffer α}
    (h : Reachable Blocks BlockSize rb) :
    rb.writeIndex_ < Blocks ∧ rb.readIndex_ < Blocks := by
  induction h with
  | fresh_ bs hlen => exact ⟨hB, hB⟩
  | write_ hr heq ih =>
    obtain ⟨-, h2⟩ := write_some heq
    subst h2
    exact ⟨Nat.mod_lt _ hB, ih.2⟩
  | writeCol_ hr heq ih =>
    obtain ⟨-, -, h3⟩ := writeCol_some heq
    subst h3
    exact ⟨Nat.mod_lt _ hB, ih.2⟩
  | read_ hr heq ih =>
    obtain ⟨-, h2⟩ := read_some heq
    rcases readImplB_eq h2 with ⟨-, -, h3, -⟩ | ⟨-, -, h3, -⟩ <;> subst h3
    · exact ih
    · exact ⟨ih.1, Nat.mod_lt _ hB⟩
  | read_for_ hr heq ih =>
    rcases read_for_eq heq with ⟨-, -, h3, -⟩ | ⟨-, h2⟩
    · subst h3
      exact ih
    · rcases readImplB_eq h2 with ⟨-, -, h3, -⟩ | ⟨-, -, h3, -⟩ <;> subst h3
      · exact ih
      · exact ⟨ih.1, Nat.mod_lt _ hB⟩
  | readCol_ hr heq ih =>
    obtain ⟨-, h2⟩ := readCol_some heq
    rcases readImplF_eq h2 with ⟨-, -, h3, -⟩ | ⟨-, -, h3, -⟩ <;> subst h3 <;> exact ih
  | readCol_for_ hr heq ih =>
    rcases readCol_for_eq heq with ⟨-, -, h3, -⟩ | ⟨-, h2⟩
    · subst h3
      exact ih
    · rcases readImplF_eq h2 with ⟨-, -, h3, -⟩ | ⟨-, -, h3, -⟩ <;> subst h3 <;> exact ih
  | read_bytes_ hr heq ih =>
    obtain ⟨-, h2⟩ := read_bytes_some heq
    rcases readImplF_eq h2 with ⟨-, -, h3, -⟩ | ⟨-, -, h3, -⟩ <;> subst h3 <;> exact ih
  | read_bytes_for_ hr heq ih =>
    rcases read_bytes_for_eq heq with ⟨-, -, h3, -⟩ | ⟨-, h2⟩
    · subst h3
      exact ih
    · rcases readImplF_eq h2 with ⟨-, -, h3, -⟩ | ⟨-, -, h3, -⟩ <;> subst h3 <;> exact ih

end utils.RingBuffer

section Claims

open utils utils.RingBuffer

/-- C3: if the defensive recheck inside a blocking block-read fails
(readIndex equals writeIndex after the read-availability counter was
successfully decremented), the call returns a false result with the
cursors, the slot array, the write-admission counter and the caller block
unchanged, but the decremented read-availability unit is not restored, so
afterwards write-admission count plus read-availability count equals
Blocks - 1. -/
theorem claim_C3_recheck_failure_loses_permit {α : Type} (Blocks : Nat)
    (rb : RingBuffer α) (blk : block α)
    (hrs : rb.readSemaphore_ ≠ 0) (heq : rb.readIndex_ = rb.writeIndex_)
    (hsum : rb.writeSemaphore_ + rb.readSemaphore_ = Blocks) :
    RingBuffer.read Blocks rb blk = some (false,
      ⟨rb.writeSemaphore_, rb.readSemaphore_ - 1, rb.writeIndex_,
        rb.readIndex_, rb.blocks_⟩, blk) ∧
    rb.writeSemaphore_ + (rb.readSemaphore_ - 1) = Blocks - 1 := by
  refine ⟨?_, by omega⟩
  unfold RingBuffer.read readImplB
  rw [if_neg hrs]
  dsimp only
  rw [if_pos heq]

/-- Witness for C3 at Blocks = 2 on a full buffer (two writes have
happened, so both cursors are 0 and the read semaphore is 2). -/
theorem claim_C3_witness :
    RingBuffer.read 2 (⟨0, 2, 0, 0, [⟨1, [5]⟩, ⟨1, [6]⟩]⟩ : RingBuffer Nat) ⟨0, [0]⟩ =
      some (false, ⟨0, 1, 0, 0, [⟨1, [5]⟩, ⟨1, [6]⟩]⟩, ⟨0, [0]⟩) ∧
    0 + (2 - 1) = 2 - 1 :=
  claim_C3_recheck_failure_loses_permit 2
    ⟨0, 2, 0, 0, [⟨1, [5]⟩, ⟨1, [6]⟩]⟩ ⟨0, [0]⟩
    (by decide) (by decide) (by decide)

/-- C4: with the write-admission and read-availability semaphores as
counters, every successful write moves one unit from the write counter to
the read counter, every successful read (any variant) moves one unit back,
and the sum of the two counters being Blocks is preserved. -/
theorem claim_C4_counter_sum_preserved {α : Type} (Blocks BlockSize : Nat) :
    (∀ (rb rb' : RingBuffer α) (b : block α),
      rb.writeSemaphore_ + rb.readSemaphore_ = Blocks →
      write Blocks rb b = some rb' →
      rb'.writeSemaphore_ = rb.writeSemaphore_ - 1 ∧
      rb'.readSemaphore_ = rb.readSemaphore_ + 1 ∧
      rb'.writeSemaphore_ + rb'.readSemaphore_ = Blocks) ∧
    (∀ (rb rb' : RingBuffer α) (c : List α) (n : Nat),
      rb.writeSemaphore_ + rb.readSemaphore_ = Blocks →
      writeCol Blocks BlockSize rb c = some (rb', n) →
      rb'.writeSemaphore_ = rb.writeSemaphore_ - 1 ∧
      rb'.readSemaphore_ = rb.readSemaphore_ + 1 ∧
      rb'.writeSemaphore_ + rb'.readSemaphore_ = Blocks) ∧
    (∀ (rb rb' : RingBuffer α) (blk out : block α),
      rb.writeSemaphore_ + rb.readSemaphore_ = Blocks →
      RingBuffer.read Blocks rb blk = some (true, rb', out) →
      rb'.writeSemaphore_ = rb.writeSemaphore_ + 1 ∧
      rb'.readSemaphore_ = rb.readSemaphore_ - 1 ∧
      rb'.writeSemaphore_ + rb'.readSemaphore_ = Blocks) ∧
    (∀ (rb rb' : RingBuffer α) (blk out : block α),
      rb.writeSemaphore_ + rb.readSemaphore_ = Blocks →
      read_for Blocks rb blk = (true, rb', out) →
      rb'.writeSemaphore_ = rb.writeSemaphore_ + 1 ∧
      rb'.readSemaphore_ = rb.readSemaphore_ - 1 ∧
      rb'.writeSemaphore_ + rb'.readSemaphore_ = Blocks) ∧
    (∀ (rb rb' : RingBuffer α) (c out : List α),
      rb.writeSemaphore_ + rb.readSemaphore_ = Blocks →
      readCol rb c = some (true, rb', out) →
      rb'.writeSemaphore_ = rb.writeSemaphore_ + 1 ∧
      rb'.readSemaphore_ = rb.readSemaphore_ - 1 ∧
      rb'.writeSemaphore_ + rb'.readSemaphore_ = Blocks) ∧
    (∀ (rb rb' : RingBuffer α) (c out : List α),
      rb.writeSemaphore_ + rb.readSemaphore_ = Blocks →
      readCol_for rb c = (true, rb', out) →
      rb'.writeSemaphore_ = rb.writeSemaphore_ + 1 ∧
      rb'.readSemaphore_ = rb.readSemaphore_ - 1 ∧
      rb'.writeSemaphore_ + rb'.readSemaphore_ = Blocks) ∧
    (∀ (rb rb' : RingBuffer α) (p : List α) (sz : Nat) (po : List α × Nat),
      rb.writeSemaphore_ + rb.readSemaphore_ = Blocks →
      read_bytes rb p sz = some (true, rb', po) →
      rb'.writeSemaphore_ = rb.writeSemaphore_ + 1 ∧
      rb'.readSemaphore_ = rb.readSemaphore_ - 1 ∧
      rb'.writeSemaphore_ + rb'.readSemaphore_ = Blocks) ∧
    (∀ (rb rb' : RingBuffer α) (p : List α) (sz : Nat) (po : List α × Nat),
      rb.writeSemaphore_ + rb.readSemaphore_ = Blocks →
      read_bytes_for rb p sz = (true, rb', po) →
      rb'.writeSemaphore_ = rb.writeSemaphore_ + 1 ∧
      rb'.readSemaphore_ = rb.readSemaphore_ - 1 ∧
      rb'.writeSemaphore_ + rb'.readSemaphore_ = Blocks) := by
  refine ⟨?_, ?_, ?_, ?_, ?_, ?_, ?_, ?_⟩
  · intro rb rb' b hsum h
    obtain ⟨hws, h2⟩ := write_some h
    subst h2
    dsimp only
    omega
  · intro rb rb' c n hsum h
    obtain ⟨hws, -, h3⟩ := writeCol_some h
    subst h3
    dsimp only
    omega
  · intro rb rb' blk out hsum h
    obtain ⟨hrs, h2⟩ := read_some h
    rcases readImplB_eq h2 with ⟨hok, -⟩ | ⟨-, -, h3, -⟩
    · exact absurd hok (by simp)
    · subst h3
      dsimp only
      omega
  · intro rb rb' blk out hsum h
    rcases read_for_eq h with ⟨-, hok, -⟩ | ⟨hrs, h2⟩
    · exact absurd hok (by simp)
    · rcases readImplB_eq h2 with ⟨hok, -⟩ | ⟨-, -, h3, -⟩
      · exact absurd hok (by simp)
      · subst h3
        dsimp only
        omega
  · intro rb rb' c out hsum h
    obtain ⟨hrs, h2⟩ := readCol_some h
    rcases readImplF_eq h2 with ⟨hok, -⟩ | ⟨-, -, h3, -⟩
    · exact absurd hok (by simp)
    · subst h3
      dsimp only
      omega
  · intro rb rb' c out hsum h
    rcases readCol_for_eq h with ⟨-, hok, -⟩ | ⟨hrs, h2⟩
    · exact absurd hok (by simp)
    · rcases readImplF_eq h2 with ⟨hok, -⟩ | ⟨-, -, h3, -⟩
      · exact absurd hok (by simp)
      · subst h3
        dsimp only
        omega
  · intro rb rb' p sz po hsum h
    obtain ⟨hrs, h2⟩ := read_bytes_some h
    rcases readImplF_eq h2 with ⟨hok, -⟩ | ⟨-, -, h3, -⟩
    · exact absurd hok (by simp)
    · subst h3
      dsimp only
      omega
  · intro rb rb' p sz po hsum h
    rcases read_bytes_for_eq h with ⟨-, hok, -⟩ | ⟨hrs, h2⟩
    · exact absurd hok (by simp)
    · rcases readImplF_eq h2 with ⟨hok, -⟩ | ⟨-, -, h3, -⟩
      · exact absurd hok (by simp)
      · subst h3
        dsimp only
        omega

/-- Witness for C4: the write conjunct applied to a one-slot buffer. -/
theorem claim_C4_witness :
    (⟨0, 1, 1 % 1, 0, [⟨1, [9]⟩]⟩ : RingBuffer Nat).writeSemaphore_ = 1 - 1 ∧
    (⟨0, 1, 1 % 1, 0, [⟨1, [9]⟩]⟩ : RingBuffer Nat).readSemaphore_ = 0 + 1 ∧
    (⟨0, 1, 1 % 1, 0, [⟨1, [9]⟩]⟩ : RingBuffer Nat).writeSemaphore_ +
      (⟨0, 1, 1 % 1, 0, [⟨1, [9]⟩]⟩ : RingBuffer Nat).readSemaphore_ = 1 :=
  (claim_C4_counter_sum_preserved 1 1).1
    ⟨1, 0, 0, 0, [⟨0, [0]⟩]⟩ ⟨0, 1, 1 % 1, 0, [⟨1, [9]⟩]⟩ ⟨1, [9]⟩
    (by decide) (by decide)

/-- C5: a successful write(collection) stores n = min(BlockSize, L) as the
target slot element count, overwrites exactly the first n entries of the
slot data array with the first n collection elements, advances the write
cursor and returns n; for L > BlockSize (slot data array of capacity
BlockSize) it returns BlockSize and the slot holds exactly the first
BlockSize source elements with count BlockSize. -/
theorem claim_C5_write_collection_truncation {α : Type}
    (Blocks BlockSize : Nat) (rb rb' : RingBuffer α) (c : List α) (n : Nat)
    (hwi : rb.writeIndex_ < rb.blocks_.length)
    (h : writeCol Blocks BlockSize rb c = some (rb', n)) :
    n = min BlockSize c.length ∧
    rb'.blocks_.getD rb.writeIndex_ dummy =
      ⟨n, c.take n ++ (rb.blocks_.getD rb.writeIndex_ dummy).data_.drop n⟩ ∧
    rb'.writeIndex_ = (rb.writeIndex_ + 1) % Blocks ∧
    (BlockSize < c.length →
      (rb.blocks_.getD rb.writeIndex_ dummy).data_.length = BlockSize →
      n = BlockSize ∧
      (rb'.blocks_.getD rb.writeIndex_ dummy).size_ = BlockSize ∧
      (rb'.blocks_.getD rb.writeIndex_ dummy).data_ = c.take BlockSize) := by
  obtain ⟨hws, hn, h3⟩ := writeCol_some h
  subst h3
  have hgd : ∀ b : block α,
      ((rb.blocks_.set rb.writeIndex_ b).getD rb.writeIndex_ dummy) = b := by
    intro b
    rw [List.getD_eq_getElem _ _ (by simpa using hwi)]
    exact List.getElem_set_self (by simpa using hwi)
  refine ⟨hn, ?_, rfl, ?_⟩
  · dsimp only
    rw [hgd]
    exact congrArg (fun m => block.mk m (c.take m ++
      (rb.blocks_.getD rb.writeIndex_ dummy).data_.drop m)) hn.symm
  · intro hL hcap
    have hminL : min BlockSize c.length = BlockSize :=
      Nat.min_eq_left (Nat.le_of_lt hL)
    have hdrop : (rb.blocks_.getD rb.writeIndex_ dummy).data_.drop
        (min BlockSize c.length) = [] := by
      rw [hminL]
      exact List.drop_eq_nil_of_le (by omega)
    refine ⟨by omega, ?_, ?_⟩
    · dsimp only
      rw [hgd]
      exact hminL
    · dsimp only
      rw [hgd]
      dsimp only
      rw [hdrop, hminL, List.append_nil]

/-- Witness for C5: a two-element collection written into a one-slot
buffer with BlockSize 1 truncates to one element. -/
theorem claim_C5_witness :
    1 = min 1 [7, 8].length ∧
    (⟨0, 1, 1 % 2, 0, [⟨1, [7]⟩, ⟨0, [0]⟩]⟩ : RingBuffer Nat).blocks_.getD 0 dummy =
      ⟨1, [7, 8].take 1 ++
        ((⟨1, 0, 0, 0, [⟨0, [0]⟩, ⟨0, [0]⟩]⟩ : RingBuffer Nat).blocks_.getD 0 dummy).data_.drop 1⟩ ∧
    (⟨0, 1, 1 % 2, 0, [⟨1, [7]⟩, ⟨0, [0]⟩]⟩ : RingBuffer Nat).writeIndex_ = (0 + 1) % 2 ∧
    (1 < [7, 8].length →
      ((⟨1, 0, 0, 0, [⟨0, [0]⟩, ⟨0, [0]⟩]⟩ : RingBuffer Nat).blocks_.getD 0 dummy).data_.length = 1 →
      1 = 1 ∧
      ((⟨0, 1, 1 % 2, 0, [⟨1, [7]⟩, ⟨0, [0]⟩]⟩ : RingBuffer Nat).blocks_.getD 0 dummy).size_ = 1 ∧
      ((⟨0, 1, 1 % 2, 0, [⟨1, [7]⟩, ⟨0, [0]⟩]⟩ : RingBuffer Nat).blocks_.getD 0 dummy).data_ = [7, 8].take 1) :=
  claim_C5_write_collection_truncation 2 1
    ⟨1, 0, 0, 0, [⟨0, [0]⟩, ⟨0, [0]⟩]⟩ ⟨0, 1, 1 % 2, 0, [⟨1, [7]⟩, ⟨0, [0]⟩]⟩
    [7, 8] 1 (by decide) (by decide)

/-- C9: a timed read variant whose timed decrement of the read-availability
counter expires (modelled sequentially: the counter is zero and no writer
runs) returns false and changes nothing: the whole buffer state and the
caller output arguments are returned untouched. -/
theorem claim_C9_timeout_mutates_nothing {α : Type} (Blocks : Nat)
    (rb : RingBuffer α) (blk : block α) (c p : List α) (sz : Nat)
    (h : rb.readSemaphore_ = 0) :
    read_for Blocks rb blk = (false, rb, blk) ∧
    readCol_for rb c = (false, rb, c) ∧
    read_bytes_for rb p sz = (false, rb, (p, sz)) := by
  unfold read_for readCol_for read_bytes_for
  rw [if_pos h, if_pos h, if_pos h]
  exact ⟨rfl, rfl, rfl⟩

/-- Witness for C9 on an empty two-slot buffer. -/
theorem claim_C9_witness :
    read_for 2 (fresh 2 [⟨0, [0]⟩, ⟨0, [0]⟩] : RingBuffer Nat) ⟨0, [0]⟩ =
      (false, fresh 2 [⟨0, [0]⟩, ⟨0, [0]⟩], ⟨0, [0]⟩) ∧
    readCol_for (fresh 2 [⟨0, [0]⟩, ⟨0, [0]⟩] : RingBuffer Nat) [] =
      (false, fresh 2 [⟨0, [0]⟩, ⟨0, [0]⟩], []) ∧
    read_bytes_for (fresh 2 [⟨0, [0]⟩, ⟨0, [0]⟩] : RingBuffer Nat) [9] 1 =
      (false, fresh 2 [⟨0, [0]⟩, ⟨0, [0]⟩], ([9], 1)) :=
  claim_C9_timeout_mutates_nothing 2 (fresh 2 [⟨0, [0]⟩, ⟨0, [0]⟩])
    ⟨0, [0]⟩ [] [9] 1 (by decide)

/-- C10: every successful collection read and byte read leaves both
cursors and every slot unchanged while still incrementing the
write-admission counter, and two consecutive successful collection reads
observe the slot at the same read-cursor position. -/
theorem claim_C10_collection_reads_leave_cursor {α : Type} :
    (∀ (rb rb' : RingBuffer α) (c out : List α),
      readCol rb c = some (true, rb', out) →
      rb'.readIndex_ = rb.readIndex_ ∧ rb'.writeIndex_ = rb.writeIndex_ ∧
      rb'.blocks_ = rb.blocks_ ∧
      rb'.writeSemaphore_ = rb.writeSemaphore_ + 1 ∧
      out = c ++ (rb.blocks_.getD rb.readIndex_ dummy).data_) ∧
    (∀ (rb rb' : RingBuffer α) (c out : List α),
      readCol_for rb c = (true, rb', out) →
      rb'.readIndex_ = rb.readIndex_ ∧ rb'.writeIndex_ = rb.writeIndex_ ∧
      rb'.blocks_ = rb.blocks_ ∧
      rb'.writeSemaphore_ = rb.writeSemaphore_ + 1 ∧
      out = c ++ (rb.blocks_.getD rb.readIndex_ dummy).data_) ∧
    (∀ (rb rb' : RingBuffer α) (p : List α) (sz : Nat) (po : List α × Nat),
      read_bytes rb p sz = some (true, rb', po) →
      rb'.readIndex_ = rb.readIndex_ ∧ rb'.writeIndex_ = rb.writeIndex_ ∧
      rb'.blocks_ = rb.blocks_ ∧
      rb'.writeSemaphore_ = rb.writeSemaphore_ + 1) ∧
    (∀ (rb rb' : RingBuffer α) (p : List α) (sz : Nat) (po : List α × Nat),
      read_bytes_for rb p sz = (true, rb', po) →
      rb'.readIndex_ = rb.readIndex_ ∧ rb'.writeIndex_ = rb.writeIndex_ ∧
      rb'.blocks_ = rb.blocks_ ∧
      rb'.writeSemaphore_ = rb.writeSemaphore_ + 1) ∧
    (∀ (rb rb1 rb2 : RingBuffer α) (c c1 out1 out2 : List α),
      readCol rb c = some (true, rb1, out1) →
      readCol rb1 c1 = some (true, rb2, out2) →
      out1 = c ++ (rb.blocks_.getD rb.readIndex_ dummy).data_ ∧
      out2 = c1 ++ (rb.blocks_.getD rb.readIndex_ dummy).data_) := by
  have hcol : ∀ (rb rb' : RingBuffer α) (c out : List α),
      readCol rb c = some (true, rb', out) →
      rb'.readIndex_ = rb.readIndex_ ∧ rb'.writeIndex_ = rb.writeIndex_ ∧
      rb'.blocks_ = rb.blocks_ ∧
      rb'.writeSemaphore_ = rb.writeSemaphore_ + 1 ∧
      out = c ++ (rb.blocks_.getD rb.readIndex_ dummy).data_ := by
    intro rb rb' c out h
    obtain ⟨hrs, h2⟩ := readCol_some h
    rcases readImplF_eq h2 with ⟨hok, -⟩ | ⟨-, -, h3, h4⟩
    · exact absurd hok (by simp)
    · subst h3
      subst h4
      exact ⟨rfl, rfl, rfl, rfl, rfl⟩
  refine ⟨hcol, ?_, ?_, ?_, ?_⟩
  · intro rb rb' c out h
    rcases readCol_for_eq h with ⟨-, hok, -⟩ | ⟨hrs, h2⟩
    · exact absurd hok (by simp)
    · rcases readImplF_eq h2 with ⟨hok, -⟩ | ⟨-, -, h3, h4⟩
      · exact absurd hok (by simp)
      · subst h3
        subst h4
        exact ⟨rfl, rfl, rfl, rfl, rfl⟩
  · intro rb rb' p sz po h
    obtain ⟨hrs, h2⟩ := read_bytes_some h
    rcases readImplF_eq h2 with ⟨hok, -⟩ | ⟨-, -, h3, -⟩
    · exact absurd hok (by simp)
    · subst h3
      exact ⟨rfl, rfl, rfl, rfl⟩
  · intro rb rb' p sz po h
    rcases read_bytes_for_eq h with ⟨-, hok, -⟩ | ⟨hrs, h2⟩
    · exact absurd hok (by simp)
    · rcases readImplF_eq h2 with ⟨hok, -⟩ | ⟨-, -, h3, -⟩
      · exact absurd hok (by simp)
      · subst h3
        exact ⟨rfl, rfl, rfl, rfl⟩
  · intro rb rb1 rb2 c c1 out1 out2 h1 h2
    obtain ⟨hri, hwi2, hbl, -, hout1⟩ := hcol rb rb1 c out1 h1
    obtain ⟨-, -, -, -, hout2⟩ := hcol rb1 rb2 c1 out2 h2
    refine ⟨hout1, ?_⟩
    rw [hout2, hbl, hri]

/-- Witness for C10: two consecutive collection reads on a buffer holding
one written slot both return that same slot contents. -/
theorem claim_C10_witness :
    [4, 5] = [] ++ ((⟨1, 2, 2, 0, [⟨2, [4, 5]⟩, ⟨1, [6, 0]⟩, ⟨0, [0, 0]⟩]⟩ :
      RingBuffer Nat).blocks_.getD 0 dummy).data_ ∧
    [9, 4, 5] = [9] ++ ((⟨1, 2, 2, 0, [⟨2, [4, 5]⟩, ⟨1, [6, 0]⟩, ⟨0, [0, 0]⟩]⟩ :
      RingBuffer Nat).blocks_.getD 0 dummy).data_ :=
  (claim_C10_collection_reads_leave_cursor).2.2.2.2
    ⟨1, 2, 2, 0, [⟨2, [4, 5]⟩, ⟨1, [6, 0]⟩, ⟨0, [0, 0]⟩]⟩
    ⟨2, 1, 2, 0, [⟨2, [4, 5]⟩, ⟨1, [6, 0]⟩, ⟨0, [0, 0]⟩]⟩
    ⟨3, 0, 2, 0, [⟨2, [4, 5]⟩, ⟨1, [6, 0]⟩, ⟨0, [0, 0]⟩]⟩
    [] [9] [4, 5] [9, 4, 5] (by decide) (by decide)

/-- C7: is_empty reports exactly whether the write cursor equals the read
cursor; it returns true on a fresh buffer and also after exactly Blocks
successful writes with no reads (full buffer), so it cannot tell the empty
state from the full state. -/
theorem claim_C7_is_empty_ambiguity {α : Type} (Blocks : Nat)
    (hB : 0 < Blocks) (init bs : List (block α)) (rb' : RingBuffer α)
    (hinit : init.length = Blocks) (hlen : bs.length = Blocks)
    (hw : writeAll Blocks (fresh Blocks init) bs = some rb') :
    (∀ rb : RingBuffer α, is_empty rb = true ↔ rb.writeIndex_ = rb.readIndex_) ∧
    is_empty (fresh Blocks init) = true ∧
    is_empty rb' = true := by
  refine ⟨fun rb => by simp [is_empty], rfl, ?_⟩
  rw [writeAll_spec Blocks bs (fresh Blocks init) (by exact hinit)
    (by exact hB) (by dsimp [fresh]; omega) (by dsimp [fresh]; omega)] at hw
  dsimp only [fresh] at hw
  have h' := (Option.some.inj hw).symm
  subst h'
  simp [is_empty, hlen]

/-- Witness for C7 at Blocks = 2: after two writes the buffer is full and
is_empty still answers true. -/
theorem claim_C7_witness :
    (∀ rb : RingBuffer Nat, is_empty rb = true ↔ rb.writeIndex_ = rb.readIndex_) ∧
    is_empty (fresh 2 [⟨0, [0]⟩, ⟨0, [0]⟩] : RingBuffer Nat) = true ∧
    is_empty (⟨0, 2, 0, 0, [⟨1, [7]⟩, ⟨1, [8]⟩]⟩ : RingBuffer Nat) = true :=
  claim_C7_is_empty_ambiguity 2 (by decide) [⟨0, [0]⟩, ⟨0, [0]⟩]
    [⟨1, [7]⟩, ⟨1, [8]⟩] ⟨0, 2, 0, 0, [⟨1, [7]⟩, ⟨1, [8]⟩]⟩
    (by decide) (by decide) (by decide)

/-- C8: after Blocks successful writes on a fresh buffer the
write-admission counter is 0 and a further write (block or collection) is
not admitted (the blocking acquire suspends, modelled as none); any
successful block read makes the write-admission counter positive again, so
a write is admitted. -/
theorem claim_C8_capacity_backpressure {α : Type} (Blocks BlockSize : Nat)
    (hB : 0 < Blocks) :
    (∀ (init bs : List (block α)) (rb1 : RingBuffer α) (b : block α)
      (c : List α), init.length = Blocks → bs.length = Blocks →
      writeAll Blocks (fresh Blocks init) bs = some rb1 →
      rb1.writeSemaphore_ = 0 ∧ write Blocks rb1 b = none ∧
      writeCol Blocks BlockSize rb1 c = none) ∧
    (∀ (rb rb' : RingBuffer α) (blk out : block α) (b : block α),
      RingBuffer.read Blocks rb blk = some (true, rb', out) →
      0 < rb'.writeSemaphore_ ∧ write Blocks rb' b ≠ none) := by
  constructor
  · intro init bs rb1 b c hinit hlen hw
    rw [writeAll_spec Blocks bs (fresh Blocks init) (by exact hinit)
      (by exact hB) (by dsimp [fresh]; omega) (by dsimp [fresh]; omega)] at hw
    dsimp only [fresh] at hw
    have h' := (Option.some.inj hw).symm
    subst h'
    have hws0 : (Blocks : Nat) - bs.length = 0 := by omega
    refine ⟨hws0, ?_, ?_⟩
    · unfold write
      dsimp only
      rw [if_pos hws0]
    · unfold writeCol
      dsimp only
      rw [if_pos hws0]
  · intro rb rb' blk out b h
    obtain ⟨hrs, h2⟩ := read_some h
    rcases readImplB_eq h2 with ⟨hok, -⟩ | ⟨-, -, h3, -⟩
    · exact absurd hok (by simp)
    · subst h3
      refine ⟨by dsimp only; omega, ?_⟩
      unfold write
      rw [if_neg (by dsimp only; omega)]
      exact Option.some_ne_none _

/-- Witness for C8 at Blocks = 1: one write fills the buffer and blocks
the next write; a successful read readmits writing. -/
theorem claim_C8_witness :
    ((⟨0, 1, 1 % 1, 0, [⟨1, [3]⟩]⟩ : RingBuffer Nat).writeSemaphore_ = 0 ∧
      write 1 ⟨0, 1, 1 % 1, 0, [⟨1, [3]⟩]⟩ ⟨1, [4]⟩ = none ∧
      writeCol 1 1 ⟨0, 1, 1 % 1, 0, [⟨1, [3]⟩]⟩ [5] = none) ∧
    ((⟨1, 0, 1, 1 % 2, [⟨1, [3]⟩, ⟨0, [0]⟩]⟩ : RingBuffer Nat).writeSemaphore_ > 0 ∧
      write 2 ⟨1, 0, 1, 1 % 2, [⟨1, [3]⟩, ⟨0, [0]⟩]⟩ ⟨1, [4]⟩ ≠ none) :=
  ⟨(claim_C8_capacity_backpressure 1 1 (by decide)).1 [⟨0, [0]⟩] [⟨1, [3]⟩]
      ⟨0, 1, 1 % 1, 0, [⟨1, [3]⟩]⟩ ⟨1, [4]⟩ [5] (by decide) (by decide) (by decide),
    (claim_C8_capacity_backpressure 2 1 (by decide)).2
      ⟨0, 1, 1, 0, [⟨1, [3]⟩, ⟨0, [0]⟩]⟩ ⟨1, 0, 1, 1 % 2, [⟨1, [3]⟩, ⟨0, [0]⟩]⟩
      ⟨0, [0]⟩ ⟨1, [3]⟩ ⟨1, [4]⟩ (by decide)⟩

/-- C6: on a fresh buffer, for any k at most Blocks, after k successful
block writes followed by k successful block reads the sequence of blocks
returned equals the sequence written, in order (counts and element values
included).  Success of every read is the hypothesis readAll = some. -/
theorem claim_C6_fifo_roundtrip {α : Type} (Blocks k : Nat) (hB : 0 < Blocks)
    (hk : k ≤ Blocks) (bs init : List (block α)) (dflt : block α)
    (hlen : bs.length = k) (hinit : init.length = Blocks)
    (rb1 rb2 : RingBuffer α) (out : List (block α))
    (hw : writeAll Blocks (fresh Blocks init) bs = some rb1)
    (hr : readAll Blocks rb1 dflt k = some (rb2, out)) :
    out = bs := by
  rw [writeAll_spec Blocks bs (fresh Blocks init) (by exact hinit)
    (by exact hB) (by dsimp [fresh]; omega) (by dsimp [fresh]; omega)] at hw
  dsimp only [fresh] at hw
  have h' := (Option.some.inj hw).symm
  subst h'
  rcases Nat.lt_or_ge k Blocks with hlt | hge
  · rw [readAll_spec Blocks dflt k _
      (by dsimp only
          simp only [List.take_zero, List.nil_append, List.length_append,
            List.length_drop]
          omega)
      (by dsimp only; omega)
      (by dsimp only; omega)
      (by dsimp only; omega)
      (by intro i hi
          dsimp only
          simp only [Nat.zero_add, hlen, Nat.mod_eq_of_lt hlt]
          omega)] at hr
    have hout := congrArg Prod.snd (Option.some.inj hr)
    dsimp only at hout
    rw [← hout]
    simp [List.take_left' hlen]
  · have hkB : k = Blocks := by omega
    obtain ⟨m, hm⟩ : ∃ m, k = m + 1 := ⟨k - 1, by omega⟩
    rw [hm, readAll] at hr
    have hread : RingBuffer.read Blocks
        ⟨Blocks - bs.length, 0 + bs.length, (0 + bs.length) % Blocks, 0,
          List.take 0 init ++ bs ++ List.drop (0 + bs.length) init⟩ dflt =
        some (false, ⟨Blocks - bs.length, 0 + bs.length - 1,
          (0 + bs.length) % Blocks, 0,
          List.take 0 init ++ bs ++ List.drop (0 + bs.length) init⟩, dflt) := by
      unfold RingBuffer.read readImplB
      dsimp only
      rw [if_neg (show ¬ 0 + bs.length = 0 by omega)]
      rw [if_pos (show (0 : Nat) = (0 + bs.length) % Blocks by
        rw [Nat.zero_add, hlen, hkB, Nat.mod_self])]
    rw [hread] at hr
    simp at hr

/-- Witness for C6 at Blocks = 3, k = 2: two writes then two reads return
the two written blocks in order. -/
theorem claim_C6_witness :
    ([⟨1, [10]⟩, ⟨2, [20]⟩] : List (block Nat)) = [⟨1, [10]⟩, ⟨2, [20]⟩] :=
  claim_C6_fifo_roundtrip 3 2 (by decide) (by decide)
    [⟨1, [10]⟩, ⟨2, [20]⟩] [⟨0, [0]⟩, ⟨0, [0]⟩, ⟨0, [0]⟩] ⟨0, [0]⟩
    (by decide) (by decide)
    ⟨1, 2, 2, 0, [⟨1, [10]⟩, ⟨2, [20]⟩, ⟨0, [0]⟩]⟩
    ⟨3, 0, 2, 2, [⟨1, [10]⟩, ⟨2, [20]⟩, ⟨0, [0]⟩]⟩
    [⟨1, [10]⟩, ⟨2, [20]⟩] (by decide) (by decide)

/-- C1: evaluation of read(Collection&) at a slot whose recorded element
count is 2 but whose data array has capacity 3: the call succeeds and
appends all 3 array entries [4, 5, 0] (the functor copies from
data_.cbegin() to data_.cend()), not only the first 2 valid elements
[4, 5] that the recorded count announces and that reserve(block.size_)
prepared for. -/
theorem claim_C1_read_collection_appends_capacity :
    readCol (⟨1, 1, 1, 0, [⟨2, [4, 5, 0]⟩, ⟨0, [0, 0, 0]⟩]⟩ : RingBuffer Nat) [] =
      some (true, ⟨2, 0, 1, 0, [⟨2, [4, 5, 0]⟩, ⟨0, [0, 0, 0]⟩]⟩, [4, 5, 0]) ∧
    ([4, 5, 0] : List Nat) ≠ [4, 5] := by
  decide

/-- C2 counterexample: a successful collection read does not advance the
read cursor.  On a two-slot buffer with one filled slot, read(Collection&)
succeeds and leaves readIndex_ at 0, not at (0 + 1) % 2 = 1 as the claim
requires of every successful read. -/
theorem claim_C2_counterexample :
    readCol (⟨1, 1, 1, 0, [⟨2, [4, 5]⟩, ⟨0, [0, 0]⟩]⟩ : RingBuffer Nat) [] =
      some (true, ⟨2, 0, 1, 0, [⟨2, [4, 5]⟩, ⟨0, [0, 0]⟩]⟩, [4, 5]) ∧
    (⟨2, 0, 1, 0, [⟨2, [4, 5]⟩, ⟨0, [0, 0]⟩]⟩ : RingBuffer Nat).readIndex_ = 0 ∧
    (0 : Nat) ≠ (0 + 1) % 2 := by
  decide

/-- C2 (amended): in every reachable state both cursors lie below Blocks;
every successful write (block or collection variant) advances the write
cursor by exactly 1 modulo Blocks and leaves the read cursor unchanged;
every successful block read (read or read_for into a block) advances the
read cursor by exactly 1 modulo Blocks and leaves the write cursor
unchanged; successful collection and byte reads leave both cursors
unchanged; block reads that return false also leave both cursors
unchanged. -/
theorem claim_C2_amended_cursor_discipline {α : Type}
    (Blocks BlockSize : Nat) (hB : 0 < Blocks) :
    (∀ rb : RingBuffer α, Reachable Blocks BlockSize rb →
      rb.writeIndex_ < Blocks ∧ rb.readIndex_ < Blocks) ∧
    (∀ (rb rb' : RingBuffer α) (b : block α),
      write Blocks rb b = some rb' →
      rb'.writeIndex_ = (rb.writeIndex_ + 1) % Blocks ∧
      rb'.readIndex_ = rb.readIndex_) ∧
    (∀ (rb rb' : RingBuffer α) (c : List α) (n : Nat),
      writeCol Blocks BlockSize rb c = some (rb', n) →
      rb'.writeIndex_ = (rb.writeIndex_ + 1) % Blocks ∧
      rb'.readIndex_ = rb.readIndex_) ∧
    (∀ (rb rb' : RingBuffer α) (blk out : block α),
      RingBuffer.read Blocks rb blk = some (true, rb', out) →
      rb'.readIndex_ = (rb.readIndex_ + 1) % Blocks ∧
      rb'.writeIndex_ = rb.writeIndex_) ∧
    (∀ (rb rb' : RingBuffer α) (blk out : block α),
      read_for Blocks rb blk = (true, rb', out) →
      rb'.readIndex_ = (rb.readIndex_ + 1) % Blocks ∧
      rb'.writeIndex_ = rb.writeIndex_) ∧
    (∀ (rb rb' : RingBuffer α) (c out : List α) (ok : Bool),
      readCol rb c = some (ok, rb', out) →
      rb'.readIndex_ = rb.readIndex_ ∧ rb'.writeIndex_ = rb.writeIndex_) ∧
    (∀ (rb rb' : RingBuffer α) (c out : List α) (ok : Bool),
      readCol_for rb c = (ok, rb', out) →
      rb'.readIndex_ = rb.readIndex_ ∧ rb'.writeIndex_ = rb.writeIndex_) ∧
    (∀ (rb rb' : RingBuffer α) (p : List α) (sz : Nat) (po : List α × Nat)
      (ok : Bool), read_bytes rb p sz = some (ok, rb', po) →
      rb'.readIndex_ = rb.readIndex_ ∧ rb'.writeIndex_ = rb.writeIndex_) ∧
    (∀ (rb rb' : RingBuffer α) (p : List α) (sz : Nat) (po : List α × Nat)
      (ok : Bool), read_bytes_for rb p sz = (ok, rb', po) →
      rb'.readIndex_ = rb.readIndex_ ∧ rb'.writeIndex_ = rb.writeIndex_) ∧
    (∀ (rb rb' : RingBuffer α) (blk out : block α),
      RingBuffer.read Blocks rb blk = some (false, rb', out) →
      rb'.readIndex_ = rb.readIndex_ ∧ rb'.writeIndex_ = rb.writeIndex_) ∧
    (∀ (rb rb' : RingBuffer α) (blk out : block α),
      read_for Blocks rb blk = (false, rb', out) →
      rb'.readIndex_ = rb.readIndex_ ∧ rb'.writeIndex_ = rb.writeIndex_) := by
  refine ⟨fun rb h => reachable_cursor_lt hB h, ?_, ?_, ?_, ?_, ?_, ?_, ?_, ?_, ?_, ?_⟩
  · intro rb rb' b h
    obtain ⟨-, h2⟩ := write_some h
    subst h2
    exact ⟨rfl, rfl⟩
  · intro rb rb' c n h
    obtain ⟨-, -, h3⟩ := writeCol_some h
    subst h3
    exact ⟨rfl, rfl⟩
  · intro rb rb' blk out h
    obtain ⟨-, h2⟩ := read_some h
    rcases readImplB_eq h2 with ⟨hok, -⟩ | ⟨-, -, h3, -⟩
    · exact absurd hok (by simp)
    · subst h3
      exact ⟨rfl, rfl⟩
  · intro rb rb' blk out h
    rcases read_for_eq h with ⟨-, hok, -⟩ | ⟨-, h2⟩
    · exact absurd hok (by simp)
    · rcases readImplB_eq h2 with ⟨hok, -⟩ | ⟨-, -, h3, -⟩
      · exact absurd hok (by simp)
      · subst h3
        exact ⟨rfl, rfl⟩
  · intro rb rb' c out ok h
    obtain ⟨-, h2⟩ := readCol_some h
    rcases readImplF_eq h2 with ⟨-, -, h3, -⟩ | ⟨-, -, h3, -⟩ <;> subst h3 <;>
      exact ⟨rfl, rfl⟩
  · intro rb rb' c out ok h
    rcases readCol_for_eq h with ⟨-, -, h3, -⟩ | ⟨-, h2⟩
    · subst h3
      exact ⟨rfl, rfl⟩
    · rcases readImplF_eq h2 with ⟨-, -, h3, -⟩ | ⟨-, -, h3, -⟩ <;> subst h3 <;>
        exact ⟨rfl, rfl⟩
  · intro rb rb' p sz po ok h
    obtain ⟨-, h2⟩ := read_bytes_some h
    rcases readImplF_eq h2 with ⟨-, -, h3, -⟩ | ⟨-, -, h3, -⟩ <;> subst h3 <;>
      exact ⟨rfl, rfl⟩
  · intro rb rb' p sz po ok h
    rcases read_bytes_for_eq h with ⟨-, -, h3, -⟩ | ⟨-, h2⟩
    · subst h3
      exact ⟨rfl, rfl⟩
    · rcases readImplF_eq h2 with ⟨-, -, h3, -⟩ | ⟨-, -, h3, -⟩ <;> subst h3 <;>
        exact ⟨rfl, rfl⟩
  · intro rb rb' blk out h
    obtain ⟨-, h2⟩ := read_some h
    rcases readImplB_eq h2 with ⟨-, -, h3, -⟩ | ⟨hok, -⟩
    · subst h3
      exact ⟨rfl, rfl⟩
    · exact absurd hok (by simp)
  · intro rb rb' blk out h
    rcases read_for_eq h with ⟨-, -, h3, -⟩ | ⟨-, h2⟩
    · subst h3
      exact ⟨rfl, rfl⟩
    · rcases readImplB_eq h2 with ⟨-, -, h3, -⟩ | ⟨hok, -⟩
      · subst h3
        exact ⟨rfl, rfl⟩
      · exact absurd hok (by simp)

/-- Witness for the amended C2: the block-write conjunct applied to a
fresh two-slot buffer. -/
theorem claim_C2_amended_witness :
    0 < 2 ∧
    ((⟨1, 1, 1 % 2, 0, [⟨1, [7]⟩, ⟨0, [0]⟩]⟩ : RingBuffer Nat).writeIndex_ =
        (0 + 1) % 2 ∧
      (⟨1, 1, 1 % 2, 0, [⟨1, [7]⟩, ⟨0, [0]⟩]⟩ : RingBuffer Nat).readIndex_ = 0) :=
  ⟨by decide, (claim_C2_amended_cursor_discipline 2 3 (by decide)).2.1
    ⟨2, 0, 0, 0, [⟨0, [0]⟩, ⟨0, [0]⟩]⟩ ⟨1, 1, 1 % 2, 0, [⟨1, [7]⟩, ⟨0, [0]⟩]⟩
    ⟨1, [7]⟩ (by decide)⟩

end Claims
